import Mathlib

/- Verification of the ranking and points-maintenance engine of jtimer-api
   (src/jtimer/models/database.py), as a shallow embedding.

   Modelling conventions:
   - Timestamps and durations are SQL double-precision columns; they are
     modelled as integers. The engine only ever subtracts and compares
     them, and every claim concerns that ordered additive structure, which
     Int models exactly (any linearly ordered additive group would do;
     float rounding is not the subject of any claim, and C10 makes the
     stored-duration/timestamp-difference relationship an explicit
     hypothesis rather than an arithmetic fact).
   - Tables are lists in insertion order; `first()` on an unordered query
     returns the head, `order_by(col).first()`/`.all()` returns the head of /
     the whole stable sort by that column (a deterministic refinement of the
     query; `ordByDuration` below captures exactly what the query itself
     constrains, for claims about tie order).
   - Presentation-only columns (usernames, countries, zone geometry,
     synthetic keys of split rows) that no engine operation reads are
     omitted; JSON serialization of a row is abstracted to the row itself.
   - The injected points formula jtimer.points.calc_points is an explicit
     function argument cp, mirroring
     calc_points(best_duration, this_duration, participant_count). -/

/-- Row of the map_times table: one persisted run. -/
structure MapTimes where
  id_ : Nat
  map_id : Nat
  player_id : Nat
  player_class : Nat
  start_time : Int
  end_time : Int
  duration : Int
  rank : Option Int
  points : Option Int
deriving DecidableEq, Repr

/-- Row of the map_checkpoint_times table: a split owned by a run. -/
structure MapCheckpointTimes where
  checkpoint_id : Nat
  time_id : Nat
  time : Int
deriving DecidableEq, Repr

/-- Row of the map_checkpoint table: a checkpoint definition of a map. -/
structure MapCheckpoint where
  id_ : Nat
  map_id : Nat
  cp_index : Nat
deriving DecidableEq, Repr

/-- Row of the player table, restricted to the aggregate leaderboard fields
the engine reads or writes. -/
structure Player where
  id_ : Nat
  s_points : Int
  d_points : Int
  s_rank : Int
  d_rank : Int
deriving DecidableEq, Repr

/-- Row of the map table (the engine itself never writes it). -/
structure MapRow where
  id_ : Nat
  s_completions : Int
  d_completions : Int
deriving DecidableEq, Repr

/-- The database state seen by the engine. `next_id` models the
autoincrement primary-key counter of map_times. -/
structure DB where
  mapTimes : List MapTimes
  checkpointTimes : List MapCheckpointTimes
  checkpoints : List MapCheckpoint
  players : List Player
  maps : List MapRow
  next_id : Nat
deriving DecidableEq, Repr

/-- Ascending order on the stored duration column
(order_by(MapTimes.duration)). -/
def durRel (a b : MapTimes) : Prop := a.duration ≤ b.duration

instance : DecidableRel durRel :=
  fun a b => inferInstanceAs (Decidable (a.duration ≤ b.duration))

instance : IsTotal MapTimes durRel := ⟨fun a b => le_total a.duration b.duration⟩

instance : IsTrans MapTimes durRel := ⟨fun _ _ _ h1 h2 => le_trans h1 h2⟩

/-- Descending order on per-player summed points
(order_by(desc(literal_column("points")))). -/
def ptsDesc (a b : Nat × Int) : Prop := b.2 ≤ a.2

instance : DecidableRel ptsDesc :=
  fun a b => inferInstanceAs (Decidable (b.2 ≤ a.2))

instance : IsTotal (Nat × Int) ptsDesc := ⟨fun a b => le_total b.2 a.2⟩

instance : IsTrans (Nat × Int) ptsDesc := ⟨fun _ _ _ h1 h2 => le_trans h2 h1⟩

/-- Membership test for the (map, class) leaderboard:
filter(MapTimes.map_id == map_id, MapTimes.player_class == cls). -/
def lbMem (m cls : Nat) (r : MapTimes) : Bool :=
  r.map_id == m && r.player_class == cls

/-- The rows of one (map, class) leaderboard, in table order. -/
def lbRows (m cls : Nat) (tbl : List MapTimes) : List MapTimes :=
  tbl.filter (lbMem m cls)

/-- The leaderboard as fetched by order_by(MapTimes.duration).all() in the
deterministic model: stable sort by the duration column. -/
def lbTimes (m cls : Nat) (tbl : List MapTimes) : List MapTimes :=
  List.insertionSort durRel (lbRows m cls tbl)

/-- What the query order_by(MapTimes.duration) itself guarantees about the
fetched row order: a permutation of the leaderboard rows that is sorted by
the duration column. duration is the only sort key in the query, so any
such permutation is a possible result. -/
def ordByDuration (l fetched : List MapTimes) : Prop :=
  List.Perm fetched l ∧ List.Sorted durRel fetched

instance (l fetched : List MapTimes) : Decidable (ordByDuration l fetched) :=
  inferInstanceAs (Decidable (List.Perm fetched l ∧ List.Sorted durRel fetched))

/-- Index of the first row with the given primary key. -/
def findIdxId (key : Nat) : List MapTimes → Option Nat
  | [] => none
  | r :: t => if r.id_ == key then some 0 else (findIdxId key t).map (· + 1)

/-- The in-place mutation performed on one fetched row i of update_ranks:
rank = i + 1 and points = calc_points(fastest, own duration, count),
located by primary key within the fetched list. -/
def rankUpd (cp : Int → Int → Nat → Int) (times : List MapTimes) (fstDur : Int)
    (r : MapTimes) : MapTimes :=
  match findIdxId r.id_ times with
  | some i =>
      { r with rank := some ((i : Int) + 1),
               points := some (cp fstDur r.duration times.length) }
  | none => r

/-- One leaderboard pass of MapTimes.update_ranks, parameterized by the
fetched row order `times`. The source mutates the fetched ORM rows in
place; here the table is rewritten, each fetched row located by its
primary key (only rows of this (map, class) are among them). -/
def rankFromFetched (cp : Int → Int → Nat → Int) (m cls : Nat)
    (times tbl : List MapTimes) : List MapTimes :=
  match times.head? with
  | none => tbl
  | some fst =>
      tbl.map fun r =>
        if lbMem m cls r then rankUpd cp times fst.duration r else r

/-- One leaderboard pass of MapTimes.update_ranks in the deterministic
model (the fetched order is the stable sort by duration). -/
def applyLeaderboard (cp : Int → Int → Nat → Int) (m cls : Nat)
    (tbl : List MapTimes) : List MapTimes :=
  rankFromFetched cp m cls (lbTimes m cls tbl) tbl

/-- First-occurrence list of distinct keys: the order in which the
group_by(player_id) groups first appear among the fetched rows. -/
def firstOccs (seen : List Nat) : List Nat → List Nat
  | [] => []
  | x :: t => if x ∈ seen then firstOccs seen t else x :: firstOccs (x :: seen) t

/-- The per-class points query of Player.calculate_ranks:
with_entities(player_id, sum(points)).filter(player_class == cls)
.group_by(player_id).filter(literal_column("points") > 0)
.order_by(desc(literal_column("points"))).
In SQLAlchemy a .filter() placed after .group_by() still contributes to the
WHERE clause, and the bare name "points" in WHERE resolves to the
map_times.points column (not the select alias), so rows with points > 0
are selected before grouping; NULL points fail the comparison and are
dropped. In ORDER BY the same name resolves to the select alias, the
per-player sum. -/
def classRows (tbl : List MapTimes) (cls : Nat) : List MapTimes :=
  tbl.filter fun r =>
    r.player_class == cls && decide ((0 : Int) < r.points.getD 0)

/-- One group's summed points (SUM over the WHERE-selected rows of the
player). -/
def classSum (tbl : List MapTimes) (cls pid : Nat) : Int :=
  (((classRows tbl cls).filter fun r => r.player_id == pid).map fun r =>
    r.points.getD 0).sum

/-- The grouped (player_id, summed points) rows before ordering: one entry
per player owning a positive-points row of the class. The sequence uses
first-occurrence order as one canonical enumeration; as a multiset of
pairs it is exactly what GROUP BY determines. -/
def classSums (tbl : List MapTimes) (cls : Nat) : List (Nat × Int) :=
  (firstOccs [] ((classRows tbl cls).map (·.player_id))).map fun pid =>
    (pid, classSum tbl cls pid)

def classPoints (tbl : List MapTimes) (cls : Nat) : List (Nat × Int) :=
  List.insertionSort ptsDesc (classSums tbl cls)

/-- What order_by(desc(literal_column("points"))) itself guarantees about
the returned ranking rows: a permutation of the grouped rows that is
sorted by descending summed points. The sum is the only sort key, so any
such permutation is a possible result; the relative order of equal sums
is left to the storage layer. -/
def ordByPtsDesc (l fetched : List (Nat × Int)) : Prop :=
  List.Perm fetched l ∧ List.Sorted ptsDesc fetched

/-- Replace the first player whose id matches: the inner
"for player in players: if player.id_ == ...: ...; break" loop. -/
def updateFirst (pid : Nat) (f : Player → Player) : List Player → List Player
  | [] => []
  | p :: t => if p.id_ == pid then f p :: t else p :: updateFirst pid f t

/-- The rank-assignment loop of Player.calculate_ranks: the entry at
position i of the sorted list writes its summed points and rank i + 1 onto
the first matching player. -/
def assignRanks (upd : Player → Int → Int → Player) :
    Nat → List (Nat × Int) → List Player → List Player
  | _, [], ps => ps
  | i, e :: rest, ps =>
      assignRanks upd (i + 1) rest
        (updateFirst e.1 (fun p => upd p e.2 ((i : Int) + 1)) ps)

/-- player.s_points = ...; player.s_rank = ... -/
def updS (p : Player) (pts rk : Int) : Player :=
  { p with s_points := pts, s_rank := rk }

/-- player.d_points = ...; player.d_rank = ... -/
def updD (p : Player) (pts rk : Int) : Player :=
  { p with d_points := pts, d_rank := rk }

/-- Player.calculate_ranks: recompute every player's per-class summed
points and dense rank from the map_times table. Soldier is class 2,
demoman class 4. -/
def Player.calculate_ranks (db : DB) : DB :=
  let soldier_points := classPoints db.mapTimes 2
  let demoman_points := classPoints db.mapTimes 4
  let ps1 := assignRanks updS 0 soldier_points db.players
  let ps2 := assignRanks updD 0 demoman_points ps1
  { db with players := ps2 }

/-- MapTimes.update_ranks: re-rank and re-score both class leaderboards of
one map (soldier first, then demoman, each fetched from the current
table), commit, then recompute the global player aggregates; returns the
(soldier, demoman) completion counts. -/
def MapTimes.update_ranks (cp : Int → Int → Nat → Int) (m : Nat) (db : DB) :
    DB × Nat × Nat :=
  let sCompl := (lbRows m 2 db.mapTimes).length
  let t1 := applyLeaderboard cp m 2 db.mapTimes
  let dCompl := (lbRows m 4 t1).length
  let t2 := applyLeaderboard cp m 4 t1
  (Player.calculate_ranks { db with mapTimes := t2 }, sCompl, dCompl)

/-- The world-record snapshot returned by MapTimes.get_records, abstracted
to the selected rows (the source serializes them to JSON). -/
structure Records where
  soldier : Option MapTimes
  demoman : Option MapTimes
deriving DecidableEq, Repr

/-- MapTimes.get_records: fastest run of the map per class
(order_by(MapTimes.duration).first()). -/
def MapTimes.get_records (tbl : List MapTimes) (m : Nat) : Records :=
  { soldier := (lbTimes m 2 tbl).head?,
    demoman := (lbTimes m 4 tbl).head? }

/-- A candidate run as constructed by the caller of MapTimes.add. Its
duration column is stored exactly as given; nothing in the engine checks
or recomputes it from the timestamps. -/
structure Candidate where
  map_id : Nat
  player_id : Nat
  player_class : Nat
  start_time : Int
  end_time : Int
  duration : Int
deriving DecidableEq, Repr

/-- A submitted split entry: a cp_index / time pair. -/
structure CpEntry where
  cp_index : Nat
  time : Int
deriving DecidableEq, Repr

/-- The new map_times row, with the next primary key; rank and points are
NULL until the first recompute. -/
def mkRun (nid : Nat) (c : Candidate) : MapTimes :=
  { id_ := nid, map_id := c.map_id, player_id := c.player_id,
    player_class := c.player_class, start_time := c.start_time,
    end_time := c.end_time, duration := c.duration,
    rank := none, points := none }

/-- Split rows built from the submitted checkpoints; entries whose
cp_index has no MapCheckpoint definition for this map are silently
dropped. -/
def mkSplits (cps : List MapCheckpoint) (m runId : Nat)
    (entries : List CpEntry) : List MapCheckpointTimes :=
  entries.filterMap fun e =>
    (cps.find? fun mc => mc.map_id == m && mc.cp_index == e.cp_index).map
      fun mc => { checkpoint_id := mc.id_, time_id := runId, time := e.time }

/-- Result of insert query (database.py InsertResult IntEnum). -/
inductive InsertResult
  | NONE
  | ADDED
  | UPDATED
deriving DecidableEq, Repr

/-- The dictionary returned by MapTimes.add, one constructor per shape. -/
inductive AddOutcome
  | added (rank : Option Int) (completions : Nat × Nat)
      (points_gained : Option Int) (duration : Int) (records : Records)
  | updated (rank : Option Int) (points_gained : Option Int)
      (completions : Nat × Nat) (improvement : Int) (duration : Int)
      (records : Records) (old_records : Option Records)
  | rejected (duration : Int) (records : Records) (old_time : Int)
deriving DecidableEq, Repr

/-- The "result" key of the returned dictionary. -/
def AddOutcome.result : AddOutcome → InsertResult
  | .added .. => .ADDED
  | .updated .. => .UPDATED
  | .rejected .. => .NONE

/-- Committed state of the ADD branch: the new run and its splits
inserted. -/
def addCommit (db : DB) (c : Candidate) (entries : List CpEntry) : DB :=
  { db with
      mapTimes := db.mapTimes ++ [mkRun db.next_id c],
      checkpointTimes :=
        db.checkpointTimes ++ mkSplits db.checkpoints c.map_id db.next_id entries,
      next_id := db.next_id + 1 }

/-- First committed state of the REPLACE branch: the new run and its
splits inserted and the old run's splits deleted ("have to commit
checkpoint deletions first to avoid foreign key constraint errors"); the
old run itself is still present. -/
def replaceCommit1 (db : DB) (c : Candidate) (entries : List CpEntry)
    (q : MapTimes) : DB :=
  { db with
      mapTimes := db.mapTimes ++ [mkRun db.next_id c],
      checkpointTimes :=
        (db.checkpointTimes.filter fun s => s.time_id != q.id_) ++
          mkSplits db.checkpoints c.map_id db.next_id entries,
      next_id := db.next_id + 1 }

/-- Second committed state of the REPLACE branch: the old run deleted by
primary key. -/
def replaceCommit2 (db : DB) (q : MapTimes) : DB :=
  { db with mapTimes := db.mapTimes.filter fun r => r.id_ != q.id_ }

/-- Lookup of a run by primary key (the ORM object `self` after the
recompute mutated it in place). -/
def findRun (tbl : List MapTimes) (nid : Nat) : Option MapTimes :=
  tbl.find? fun r => r.id_ == nid

/-- MapTimes.add. The existing-run lookup in the source combines its three
column comparisons with the Python `and` operator; the truth value of a
SQLAlchemy `==` clause compares the operands' hashes and is False here, so
the conjunction evaluates to its first operand and the executed filter is
by map_id alone. -/
def MapTimes.add (cp : Int → Int → Nat → Int) (db : DB) (c : Candidate)
    (entries : List CpEntry) : DB × AddOutcome :=
  let query := (db.mapTimes.filter fun r => r.map_id == c.map_id).head?
  let records := MapTimes.get_records db.mapTimes c.map_id
  match query with
  | none =>
      let nid := db.next_id
      let res := MapTimes.update_ranks cp c.map_id (addCommit db c entries)
      let self := findRun res.1.mapTimes nid
      (res.1, .added (self.bind (·.rank)) res.2 (self.bind (·.points))
        c.duration records)
  | some q =>
      let old_time := q.end_time - q.start_time
      let new_time := c.end_time - c.start_time
      let old_points := q.points
      if new_time < old_time then
        let improvement := old_time - new_time
        let nid := db.next_id
        let db2 := replaceCommit2 (replaceCommit1 db c entries q) q
        let res := MapTimes.update_ranks cp c.map_id db2
        let self := findRun res.1.mapTimes nid
        let rk := self.bind (·.rank)
        let pts := self.bind (·.points)
        let points_gained : Option Int :=
          match pts, old_points with
          | some a, some b => some (a - b)
          | _, _ => none
        if rk == some 1 then
          let new_records :=
            if c.player_class == 2 then { records with soldier := self }
            else if c.player_class == 4 then { records with demoman := self }
            else records
          (res.1, .updated rk points_gained res.2 improvement c.duration
            new_records (some records))
        else
          (res.1, .updated rk points_gained res.2 improvement c.duration
            records none)
      else
        (db, .rejected c.duration records old_time)

/-- Error taxonomy of the Submission Engine contract. -/
inductive SubmitError
  | invalidInput
  | notFound
deriving DecidableEq, Repr

/-- Modelled from the spec: the Submission Engine's input validation is
performed by the API layer, which is not part of the provided source (only
MapTimes.add is). Spec 4.1 and 7 state that a submission "fails with
InvalidInput if end_time < start_time", rejected before any read or
mutation; otherwise the candidate proceeds to MapTimes.add. -/
def submit (cp : Int → Int → Nat → Int) (db : DB) (c : Candidate)
    (entries : List CpEntry) : Except SubmitError (DB × AddOutcome) :=
  if c.end_time < c.start_time then .error .invalidInput
  else .ok (MapTimes.add cp db c entries)

/-! ### Basic facts about the leaderboard pass -/

theorem rankUpd_id (cp : Int → Int → Nat → Int) (ts : List MapTimes) (d : Int)
    (r : MapTimes) : (rankUpd cp ts d r).id_ = r.id_ := by
  unfold rankUpd; split <;> rfl

theorem rankUpd_duration (cp : Int → Int → Nat → Int) (ts : List MapTimes) (d : Int)
    (r : MapTimes) : (rankUpd cp ts d r).duration = r.duration := by
  unfold rankUpd; split <;> rfl

theorem rankUpd_lbMem (cp : Int → Int → Nat → Int) (ts : List MapTimes) (d : Int)
    (m cls : Nat) (r : MapTimes) :
    lbMem m cls (rankUpd cp ts d r) = lbMem m cls r := by
  unfold rankUpd lbMem; split <;> rfl

theorem findIdxId_map_of_id (f : MapTimes → MapTimes)
    (hf : ∀ x, (f x).id_ = x.id_) (k : Nat) (l : List MapTimes) :
    findIdxId k (l.map f) = findIdxId k l := by
  induction l with
  | nil => rfl
  | cons r t ih => simp only [List.map_cons, findIdxId, hf, ih]

theorem findIdxId_getElem (l : List MapTimes)
    (hnd : (l.map MapTimes.id_).Nodup) (j : Nat) (hj : j < l.length) :
    findIdxId (l[j].id_) l = some j := by
  induction l generalizing j with
  | nil => simp at hj
  | cons a t ih =>
    rw [List.map_cons, List.nodup_cons] at hnd
    cases j with
    | zero => simp [findIdxId]
    | succ j =>
      have hj2 : j < t.length := by simpa using hj
      have hne : a.id_ ≠ t[j].id_ := by
        intro h
        exact hnd.1 (h ▸ List.mem_map_of_mem MapTimes.id_ (List.getElem_mem hj2))
      simp only [List.getElem_cons_succ, findIdxId]
      simp [hne, ih hnd.2 j hj2]

theorem orderedInsert_map_dur (f : MapTimes → MapTimes)
    (hf : ∀ x, (f x).duration = x.duration) (a : MapTimes) (l : List MapTimes) :
    List.orderedInsert durRel (f a) (l.map f) =
      (List.orderedInsert durRel a l).map f := by
  induction l with
  | nil => rfl
  | cons b t ih =>
    by_cases h : durRel a b
    · have h2 : durRel (f a) (f b) := by simpa only [durRel, hf] using h
      simp [List.orderedInsert, h, h2]
    · have h2 : ¬ durRel (f a) (f b) := by simpa only [durRel, hf] using h
      simp [List.orderedInsert, h, h2, ih]

theorem insertionSort_map_dur (f : MapTimes → MapTimes)
    (hf : ∀ x, (f x).duration = x.duration) (l : List MapTimes) :
    List.insertionSort durRel (l.map f) =
      (List.insertionSort durRel l).map f := by
  induction l with
  | nil => rfl
  | cons b t ih =>
    simp only [List.map_cons, List.insertionSort, ih, orderedInsert_map_dur f hf]

theorem filter_map_pres (f : MapTimes → MapTimes) (p : MapTimes → Bool)
    (hf : ∀ r, p (f r) = p r) (tbl : List MapTimes) :
    (tbl.map f).filter p = (tbl.filter p).map f := by
  induction tbl with
  | nil => rfl
  | cons a t ih =>
    simp only [List.map_cons, List.filter_cons, hf]
    cases hpa : p a <;> simp [hpa, ih]

theorem rankFromFetched_eq_of_head (cp : Int → Int → Nat → Int) (m cls : Nat)
    (times tbl : List MapTimes) (fst : MapTimes) (h : times.head? = some fst) :
    rankFromFetched cp m cls times tbl =
      tbl.map fun r =>
        if lbMem m cls r then rankUpd cp times fst.duration r else r := by
  unfold rankFromFetched; rw [h]

theorem lbRows_rankFromFetched (cp : Int → Int → Nat → Int) (m cls : Nat)
    (times tbl : List MapTimes) (fst : MapTimes) (h : times.head? = some fst) :
    lbRows m cls (rankFromFetched cp m cls times tbl) =
      (lbRows m cls tbl).map (rankUpd cp times fst.duration) := by
  rw [rankFromFetched_eq_of_head cp m cls times tbl fst h]
  unfold lbRows
  rw [filter_map_pres]
  · apply List.map_congr_left
    intro r hr
    rw [if_pos (List.mem_filter.mp hr).2]
  · intro r
    by_cases hc : lbMem m cls r
    · simp [hc, rankUpd_lbMem]
    · simp [hc]

theorem lbMem_false_of_class (m cls : Nat) (r : MapTimes) (cls2 : Nat)
    (h : r.player_class = cls2) (hne : cls2 ≠ cls) : lbMem m cls r = false := by
  simp [lbMem, h, hne]

theorem lbRows_rankFromFetched_other (cp : Int → Int → Nat → Int)
    (m cls m2 cls2 : Nat) (times tbl : List MapTimes) (hne : cls2 ≠ cls) :
    lbRows m2 cls2 (rankFromFetched cp m cls times tbl) = lbRows m2 cls2 tbl := by
  unfold rankFromFetched
  cases h : times.head? with
  | none => rfl
  | some fst =>
    unfold lbRows
    rw [filter_map_pres]
    · have hid : ∀ r ∈ tbl.filter (lbMem m2 cls2),
          (if lbMem m cls r then rankUpd cp times fst.duration r else r) = id r := by
        intro r hr
        have hcls2 : r.player_class = cls2 := by
          have := (List.mem_filter.mp hr).2
          simp [lbMem] at this
          exact this.2
        simp [lbMem_false_of_class m cls r cls2 hcls2 hne]
      rw [List.map_congr_left hid, List.map_id]
    · intro r
      by_cases hc : lbMem m cls r
      · simp [hc, rankUpd_lbMem]
      · simp [hc]

theorem applyLeaderboard_of_empty (cp : Int → Int → Nat → Int) (m cls : Nat)
    (tbl : List MapTimes) (h : lbRows m cls tbl = []) :
    applyLeaderboard cp m cls tbl = tbl := by
  unfold applyLeaderboard lbTimes
  rw [h]
  rfl

theorem lbTimes_perm (m cls : Nat) (tbl : List MapTimes) :
    List.Perm (lbTimes m cls tbl) (lbRows m cls tbl) :=
  List.perm_insertionSort durRel _

theorem lbTimes_sorted (m cls : Nat) (tbl : List MapTimes) :
    List.Sorted durRel (lbTimes m cls tbl) :=
  List.sorted_insertionSort durRel _

/-! ### Positional analysis of a leaderboard recompute -/

theorem rankUpd_eval (cp : Int → Int → Nat → Int) (fd : Int) (times : List MapTimes)
    (r : MapTimes) (j : Nat) (h : findIdxId r.id_ times = some j) :
    rankUpd cp times fd r =
      { r with rank := some ((j : Int) + 1),
               points := some (cp fd r.duration times.length) } := by
  unfold rankUpd; rw [h]

theorem pos_spec (times : List MapTimes) (hnd : (times.map MapTimes.id_).Nodup)
    (r : MapTimes) (hr : r ∈ times) :
    ∃ j, ∃ hj : j < times.length,
      times[j] = r ∧ findIdxId r.id_ times = some j := by
  obtain ⟨j, hj, hje⟩ := List.getElem_of_mem hr
  exact ⟨j, hj, hje, by rw [← hje]; exact findIdxId_getElem times hnd j hj⟩

theorem ranks_perm_of_fetched (cp : Int → Int → Nat → Int) (m cls : Nat)
    (tbl times : List MapTimes) (fst : MapTimes)
    (hperm : List.Perm times (lbRows m cls tbl))
    (hhead : times.head? = some fst)
    (hnd : ((lbRows m cls tbl).map MapTimes.id_).Nodup) :
    List.Perm
      ((lbRows m cls (rankFromFetched cp m cls times tbl)).map MapTimes.rank)
      ((List.range (lbRows m cls tbl).length).map fun i : Nat =>
        some ((i : Int) + 1)) := by
  have hnd2 : (times.map MapTimes.id_).Nodup :=
    (hperm.map MapTimes.id_).nodup_iff.mpr hnd
  rw [lbRows_rankFromFetched cp m cls times tbl fst hhead, List.map_map]
  have hlen : times.length = (lbRows m cls tbl).length := hperm.length_eq
  have heq : times.map (MapTimes.rank ∘ rankUpd cp times fst.duration) =
      (List.range times.length).map fun i : Nat => some ((i : Int) + 1) := by
    apply List.ext_getElem (by simp)
    intro j h1 h2
    simp only [List.getElem_map, List.getElem_range, Function.comp]
    rw [rankUpd_eval cp fst.duration times _ j
      (findIdxId_getElem times hnd2 j (by simpa using h1))]
  have hp := (hperm.map (MapTimes.rank ∘ rankUpd cp times fst.duration)).symm
  rw [heq, hlen] at hp
  exact hp

theorem rank_mono_of_fetched (cp : Int → Int → Nat → Int) (m cls : Nat)
    (tbl times : List MapTimes) (fst : MapTimes)
    (hperm : List.Perm times (lbRows m cls tbl))
    (hsort : List.Sorted durRel times)
    (hhead : times.head? = some fst)
    (hnd : ((lbRows m cls tbl).map MapTimes.id_).Nodup) :
    ∀ r1 ∈ lbRows m cls (rankFromFetched cp m cls times tbl),
      ∀ r2 ∈ lbRows m cls (rankFromFetched cp m cls times tbl),
        ∀ i j : Int, r1.rank = some i → r2.rank = some j → i < j →
          r1.duration ≤ r2.duration := by
  have hnd2 : (times.map MapTimes.id_).Nodup :=
    (hperm.map MapTimes.id_).nodup_iff.mpr hnd
  rw [lbRows_rankFromFetched cp m cls times tbl fst hhead]
  intro r1 hr1 r2 hr2 i j hi hj hij
  obtain ⟨s1, hs1, rfl⟩ := List.mem_map.mp hr1
  obtain ⟨s2, hs2, rfl⟩ := List.mem_map.mp hr2
  have hs1t : s1 ∈ times := hperm.mem_iff.mpr hs1
  have hs2t : s2 ∈ times := hperm.mem_iff.mpr hs2
  obtain ⟨j1, hj1, hget1, hf1⟩ := pos_spec times hnd2 s1 hs1t
  obtain ⟨j2, hj2, hget2, hf2⟩ := pos_spec times hnd2 s2 hs2t
  rw [rankUpd_eval cp fst.duration times s1 j1 hf1] at hi
  rw [rankUpd_eval cp fst.duration times s2 j2 hf2] at hj
  have hi2 : ((j1 : Int) + 1) = i := by simpa using hi
  have hj2e : ((j2 : Int) + 1) = j := by simpa using hj
  have hlt : j1 < j2 := by omega
  have hdr : durRel (times.get ⟨j1, hj1⟩) (times.get ⟨j2, hj2⟩) :=
    List.Sorted.rel_get_of_lt hsort (by exact Fin.mk_lt_mk.mpr hlt)
  rw [List.get_eq_getElem, List.get_eq_getElem, hget1, hget2] at hdr
  rw [rankUpd_duration, rankUpd_duration]
  exact hdr

theorem points_of_fetched (cp : Int → Int → Nat → Int) (m cls : Nat)
    (tbl times : List MapTimes) (fst : MapTimes)
    (hperm : List.Perm times (lbRows m cls tbl))
    (hhead : times.head? = some fst)
    (hnd : ((lbRows m cls tbl).map MapTimes.id_).Nodup) :
    ∃ r1 ∈ lbRows m cls (rankFromFetched cp m cls times tbl),
      r1.rank = some 1 ∧
        ∀ r ∈ lbRows m cls (rankFromFetched cp m cls times tbl),
          r.points = some (cp r1.duration r.duration (lbRows m cls tbl).length) := by
  have hnd2 : (times.map MapTimes.id_).Nodup :=
    (hperm.map MapTimes.id_).nodup_iff.mpr hnd
  obtain ⟨ys, rfl⟩ := List.head?_eq_some_iff.mp hhead
  have hfidx : findIdxId fst.id_ (fst :: ys) = some 0 := by simp [findIdxId]
  have hfmem : fst ∈ lbRows m cls tbl := hperm.mem_iff.mp (List.mem_cons_self fst ys)
  refine ⟨rankUpd cp (fst :: ys) fst.duration fst, ?_, ?_, ?_⟩
  · rw [lbRows_rankFromFetched cp m cls (fst :: ys) tbl fst rfl]
    exact List.mem_map_of_mem _ hfmem
  · rw [rankUpd_eval cp fst.duration (fst :: ys) fst 0 hfidx]
    norm_num
  · intro r hr
    rw [lbRows_rankFromFetched cp m cls (fst :: ys) tbl fst rfl] at hr
    obtain ⟨s, hs, rfl⟩ := List.mem_map.mp hr
    have hst : s ∈ fst :: ys := hperm.mem_iff.mpr hs
    obtain ⟨j, hj, hget, hf⟩ := pos_spec (fst :: ys) hnd2 s hst
    rw [rankUpd_eval cp fst.duration (fst :: ys) s j hf,
      rankUpd_eval cp fst.duration (fst :: ys) fst 0 hfidx]
    rw [show (fst :: ys).length = (lbRows m cls tbl).length from hperm.length_eq]

theorem strict_rank_of_fetched (cp : Int → Int → Nat → Int) (m cls : Nat)
    (tbl times : List MapTimes) (fst : MapTimes)
    (hperm : List.Perm times (lbRows m cls tbl))
    (hsort : List.Sorted durRel times)
    (hhead : times.head? = some fst)
    (hnd : ((lbRows m cls tbl).map MapTimes.id_).Nodup) :
    ∀ r1 ∈ lbRows m cls (rankFromFetched cp m cls times tbl),
      ∀ r2 ∈ lbRows m cls (rankFromFetched cp m cls times tbl),
        r1.duration < r2.duration →
          ∀ i j : Int, r1.rank = some i → r2.rank = some j → i < j := by
  have hnd2 : (times.map MapTimes.id_).Nodup :=
    (hperm.map MapTimes.id_).nodup_iff.mpr hnd
  rw [lbRows_rankFromFetched cp m cls times tbl fst hhead]
  intro r1 hr1 r2 hr2 hdur i j hi hj
  obtain ⟨s1, hs1, rfl⟩ := List.mem_map.mp hr1
  obtain ⟨s2, hs2, rfl⟩ := List.mem_map.mp hr2
  rw [rankUpd_duration, rankUpd_duration] at hdur
  have hs1t : s1 ∈ times := hperm.mem_iff.mpr hs1
  have hs2t : s2 ∈ times := hperm.mem_iff.mpr hs2
  obtain ⟨j1, hj1, hget1, hf1⟩ := pos_spec times hnd2 s1 hs1t
  obtain ⟨j2, hj2, hget2, hf2⟩ := pos_spec times hnd2 s2 hs2t
  rw [rankUpd_eval cp fst.duration times s1 j1 hf1] at hi
  rw [rankUpd_eval cp fst.duration times s2 j2 hf2] at hj
  have hi2 : ((j1 : Int) + 1) = i := by simpa using hi
  have hj2e : ((j2 : Int) + 1) = j := by simpa using hj
  have hlt : j1 < j2 := by
    rcases Nat.lt_trichotomy j1 j2 with h | h | h
    · exact h
    · exfalso
      subst h
      have hs12 : s1 = s2 := hget1.symm.trans hget2
      rw [hs12] at hdur
      exact lt_irrefl _ hdur
    · exfalso
      have hdr : durRel (times.get ⟨j2, hj2⟩) (times.get ⟨j1, hj1⟩) :=
        List.Sorted.rel_get_of_lt hsort (by exact Fin.mk_lt_mk.mpr h)
      rw [List.get_eq_getElem, List.get_eq_getElem, hget1, hget2] at hdr
      exact absurd hdur (not_lt.mpr hdr)
  omega

/-! ### update_ranks structure and idempotence of the leaderboard pass -/

theorem rankUpd_none (cp : Int → Int → Nat → Int) (times : List MapTimes) (fd : Int)
    (r : MapTimes) (h : findIdxId r.id_ times = none) :
    rankUpd cp times fd r = r := by
  unfold rankUpd; rw [h]

theorem update_ranks_mapTimes (cp : Int → Int → Nat → Int) (m : Nat) (db : DB) :
    (MapTimes.update_ranks cp m db).1.mapTimes =
      applyLeaderboard cp m 4 (applyLeaderboard cp m 2 db.mapTimes) := rfl

theorem update_ranks_checkpointTimes (cp : Int → Int → Nat → Int) (m : Nat)
    (db : DB) :
    (MapTimes.update_ranks cp m db).1.checkpointTimes = db.checkpointTimes := rfl

theorem update_ranks_snd (cp : Int → Int → Nat → Int) (m : Nat) (db : DB) :
    (MapTimes.update_ranks cp m db).2 =
      ((lbRows m 2 db.mapTimes).length,
        (lbRows m 4 (applyLeaderboard cp m 2 db.mapTimes)).length) := rfl

theorem applyLeaderboard_lbRows_other (cp : Int → Int → Nat → Int)
    (m cls m2 cls2 : Nat) (tbl : List MapTimes) (hne : cls2 ≠ cls) :
    lbRows m2 cls2 (applyLeaderboard cp m cls tbl) = lbRows m2 cls2 tbl :=
  lbRows_rankFromFetched_other cp m cls m2 cls2 _ tbl hne

theorem lbRows_applyLeaderboard (cp : Int → Int → Nat → Int) (m cls : Nat)
    (tbl : List MapTimes) (fst : MapTimes)
    (hhead : (lbTimes m cls tbl).head? = some fst) :
    lbRows m cls (applyLeaderboard cp m cls tbl) =
      (lbRows m cls tbl).map (rankUpd cp (lbTimes m cls tbl) fst.duration) :=
  lbRows_rankFromFetched cp m cls _ tbl fst hhead

theorem applyLeaderboard_fix (cp : Int → Int → Nat → Int) (m cls : Nat)
    (tbl u : List MapTimes)
    (hu : lbRows m cls u = lbRows m cls (applyLeaderboard cp m cls tbl)) :
    applyLeaderboard cp m cls u = u := by
  cases hE : (lbTimes m cls tbl).head? with
  | none =>
    have hTnil : lbTimes m cls tbl = [] := List.head?_eq_none_iff.mp hE
    have hOnil : lbRows m cls tbl = [] := by
      have := (lbTimes_perm m cls tbl).length_eq
      rw [hTnil] at this
      exact List.length_eq_zero.mp this.symm
    have happ : applyLeaderboard cp m cls tbl = tbl := by
      unfold applyLeaderboard
      rw [hTnil]
      rfl
    apply applyLeaderboard_of_empty
    rw [hu, happ, hOnil]
  | some fst =>
    have hF_dur : ∀ x, (rankUpd cp (lbTimes m cls tbl) fst.duration x).duration
        = x.duration := rankUpd_duration cp (lbTimes m cls tbl) fst.duration
    have hF_id : ∀ x, (rankUpd cp (lbTimes m cls tbl) fst.duration x).id_
        = x.id_ := rankUpd_id cp (lbTimes m cls tbl) fst.duration
    have hu2 : lbRows m cls u =
        (lbRows m cls tbl).map (rankUpd cp (lbTimes m cls tbl) fst.duration) := by
      rw [hu, lbRows_applyLeaderboard cp m cls tbl fst hE]
    have hTu : lbTimes m cls u =
        (lbTimes m cls tbl).map (rankUpd cp (lbTimes m cls tbl) fst.duration) := by
      unfold lbTimes
      rw [hu2]
      exact insertionSort_map_dur _ hF_dur _
    have hheadu : (lbTimes m cls u).head? =
        some (rankUpd cp (lbTimes m cls tbl) fst.duration fst) := by
      obtain ⟨ys, hys⟩ := List.head?_eq_some_iff.mp hE
      rw [hTu, hys]
      rfl
    unfold applyLeaderboard
    rw [rankFromFetched_eq_of_head cp m cls _ u _ hheadu, hTu, hF_dur fst]
    have hfix : ∀ r ∈ u,
        (if lbMem m cls r then
          rankUpd cp
            ((lbTimes m cls tbl).map (rankUpd cp (lbTimes m cls tbl) fst.duration))
            fst.duration r
         else r) = id r := by
      intro r hr
      by_cases hm : lbMem m cls r
      · rw [if_pos hm]
        have hrmem : r ∈ (lbRows m cls tbl).map
            (rankUpd cp (lbTimes m cls tbl) fst.duration) := by
          rw [← hu2]
          exact List.mem_filter.mpr ⟨hr, hm⟩
        obtain ⟨s, hs, rfl⟩ := List.mem_map.mp hrmem
        cases hidx : findIdxId s.id_ (lbTimes m cls tbl) with
        | none =>
          have hFs : rankUpd cp (lbTimes m cls tbl) fst.duration s = s :=
            rankUpd_none cp _ fst.duration s hidx
          have ho : findIdxId
              (rankUpd cp (lbTimes m cls tbl) fst.duration s).id_
              ((lbTimes m cls tbl).map
                (rankUpd cp (lbTimes m cls tbl) fst.duration)) = none := by
            rw [hF_id, findIdxId_map_of_id _ hF_id]
            exact hidx
          rw [rankUpd_none cp _ fst.duration _ ho]
          rfl
        | some i =>
          have ho : findIdxId
              (rankUpd cp (lbTimes m cls tbl) fst.duration s).id_
              ((lbTimes m cls tbl).map
                (rankUpd cp (lbTimes m cls tbl) fst.duration)) = some i := by
            rw [hF_id, findIdxId_map_of_id _ hF_id]
            exact hidx
          rw [rankUpd_eval cp fst.duration _ _ i ho,
            rankUpd_eval cp fst.duration _ s i hidx]
          simp [List.length_map]
      · rw [if_neg hm]
        rfl
    rw [List.map_congr_left hfix, List.map_id]

theorem applyLeaderboard_idem_pair (cp : Int → Int → Nat → Int) (m : Nat)
    (tbl : List MapTimes) :
    applyLeaderboard cp m 4 (applyLeaderboard cp m 2
        (applyLeaderboard cp m 4 (applyLeaderboard cp m 2 tbl))) =
      applyLeaderboard cp m 4 (applyLeaderboard cp m 2 tbl) := by
  have h1 : applyLeaderboard cp m 2
      (applyLeaderboard cp m 4 (applyLeaderboard cp m 2 tbl)) =
        applyLeaderboard cp m 4 (applyLeaderboard cp m 2 tbl) := by
    apply applyLeaderboard_fix cp m 2 tbl
    exact applyLeaderboard_lbRows_other cp m 4 m 2 _ (by omega)
  rw [h1]
  apply applyLeaderboard_fix cp m 4 (applyLeaderboard cp m 2 tbl)
  rfl

/-! ### Player.calculate_ranks: characterization and idempotence -/

/-- Position (0-based) and summed points of a key in the ranking list. -/
def lookupRank (key : Nat) : List (Nat × Int) → Option (Nat × Int)
  | [] => none
  | e :: t =>
      if e.1 == key then some (0, e.2)
      else (lookupRank key t).map fun q => (q.1 + 1, q.2)

/-- Effect of the soldier assignment loop on one player. -/
def chiS (entries : List (Nat × Int)) (p : Player) : Player :=
  match lookupRank p.id_ entries with
  | some jv => updS p jv.2 ((jv.1 : Int) + 1)
  | none => p

/-- Effect of the demoman assignment loop on one player. -/
def chiD (entries : List (Nat × Int)) (p : Player) : Player :=
  match lookupRank p.id_ entries with
  | some jv => updD p jv.2 ((jv.1 : Int) + 1)
  | none => p

theorem chiS_id (entries : List (Nat × Int)) (p : Player) :
    (chiS entries p).id_ = p.id_ := by
  unfold chiS; cases lookupRank p.id_ entries <;> simp [updS]

theorem chiD_id (entries : List (Nat × Int)) (p : Player) :
    (chiD entries p).id_ = p.id_ := by
  unfold chiD; cases lookupRank p.id_ entries <;> simp [updD]

theorem lookupRank_none (key : Nat) (entries : List (Nat × Int))
    (h : key ∉ entries.map Prod.fst) : lookupRank key entries = none := by
  induction entries with
  | nil => rfl
  | cons e t ih =>
    simp only [List.map_cons, List.mem_cons] at h
    push_neg at h
    have hb : (e.1 == key) = false := by simp [Ne.symm h.1]
    simp [lookupRank, hb, ih h.2]

theorem firstOccs_not_mem_seen (l : List Nat) :
    ∀ seen, ∀ x ∈ firstOccs seen l, x ∉ seen := by
  induction l with
  | nil => intro seen x hx; simp [firstOccs] at hx
  | cons a t ih =>
    intro seen x hx
    by_cases h : a ∈ seen
    · rw [firstOccs, if_pos h] at hx
      exact ih seen x hx
    · rw [firstOccs, if_neg h] at hx
      rcases List.mem_cons.mp hx with rfl | hx2
      · exact h
      · intro hxs
        exact ih (a :: seen) x hx2 (List.mem_cons_of_mem a hxs)

theorem firstOccs_nodup (l : List Nat) : ∀ seen, (firstOccs seen l).Nodup := by
  induction l with
  | nil => intro seen; simp [firstOccs]
  | cons a t ih =>
    intro seen
    by_cases h : a ∈ seen
    · rw [firstOccs, if_pos h]; exact ih seen
    · rw [firstOccs, if_neg h]
      refine List.nodup_cons.mpr ⟨?_, ih (a :: seen)⟩
      intro hmem
      exact firstOccs_not_mem_seen t (a :: seen) a hmem (List.mem_cons_self a seen)

theorem firstOccs_subset (l : List Nat) :
    ∀ seen, ∀ x ∈ firstOccs seen l, x ∈ l := by
  induction l with
  | nil => intro seen x hx; simp [firstOccs] at hx
  | cons a t ih =>
    intro seen x hx
    by_cases h : a ∈ seen
    · rw [firstOccs, if_pos h] at hx
      exact List.mem_cons_of_mem a (ih seen x hx)
    · rw [firstOccs, if_neg h] at hx
      rcases List.mem_cons.mp hx with h1 | hx2
      · rw [h1]; exact List.mem_cons_self a t
      · exact List.mem_cons_of_mem a (ih (a :: seen) x hx2)

theorem classPoints_fst_nodup (tbl : List MapTimes) (cls : Nat) :
    ((classPoints tbl cls).map Prod.fst).Nodup := by
  unfold classPoints
  have hperm := List.perm_insertionSort ptsDesc (classSums tbl cls)
  apply (hperm.map Prod.fst).nodup_iff.mpr
  unfold classSums
  rw [List.map_map]
  have hcomp : (Prod.fst ∘ fun pid => ((pid, classSum tbl cls pid) : Nat × Int))
      = id := rfl
  rw [hcomp, List.map_id]
  exact firstOccs_nodup _ []

theorem classPoints_sorted (tbl : List MapTimes) (cls : Nat) :
    List.Sorted ptsDesc (classPoints tbl cls) :=
  List.sorted_insertionSort ptsDesc _

theorem classPoints_pos (tbl : List MapTimes) (cls : Nat) :
    ∀ e ∈ classPoints tbl cls, 0 < e.2 := by
  intro e he
  have he2 : e ∈ (firstOccs [] ((classRows tbl cls).map (·.player_id))).map
      fun pid => ((pid, classSum tbl cls pid) : Nat × Int) :=
    (List.mem_insertionSort ptsDesc).mp he
  obtain ⟨pid, hpid, rfl⟩ := List.mem_map.mp he2
  have hpid2 : pid ∈ (classRows tbl cls).map (·.player_id) :=
    firstOccs_subset _ [] pid hpid
  obtain ⟨r, hr, hr2⟩ := List.mem_map.mp hpid2
  unfold classSum
  apply List.sum_pos
  · intro x hx
    obtain ⟨s, hs, rfl⟩ := List.mem_map.mp hx
    have h2 := (List.mem_filter.mp (List.mem_filter.mp hs).1).2
    rw [Bool.and_eq_true] at h2
    exact of_decide_eq_true h2.2
  · have hrf : r ∈ (classRows tbl cls).filter fun x => x.player_id == pid :=
      List.mem_filter.mpr ⟨hr, by simp [hr2]⟩
    intro hmap
    exact List.ne_nil_of_mem hrf (List.map_eq_nil_iff.mp hmap)

theorem updateFirst_char (pid : Nat) (f : Player → Player) (ps : List Player)
    (hnd : (ps.map Player.id_).Nodup) :
    updateFirst pid f ps = ps.map fun p => if p.id_ == pid then f p else p := by
  induction ps with
  | nil => rfl
  | cons p t ih =>
    rw [List.map_cons, List.nodup_cons] at hnd
    cases h : (p.id_ == pid) with
    | true =>
      have hpe : p.id_ = pid := by simpa using h
      have ht : ∀ x ∈ t, (if x.id_ == pid then f x else x) = id x := by
        intro x hx
        have hxne : x.id_ ≠ pid := by
          intro he
          exact hnd.1 (by rw [hpe, ← he]; exact List.mem_map_of_mem Player.id_ hx)
        simp [hxne]
      rw [List.map_cons, List.map_congr_left ht, List.map_id]
      simp [updateFirst, h]
    | false =>
      have hstep : updateFirst pid f (p :: t) = p :: updateFirst pid f t := by
        simp [updateFirst, h]
      rw [hstep, ih hnd.2, List.map_cons]
      simp [h]

/-- The per-player effect of one assignment loop started at index i0. -/
def charApply (upd : Player → Int → Int → Player) (i0 : Nat)
    (entries : List (Nat × Int)) (p : Player) : Player :=
  match lookupRank p.id_ entries with
  | some jv => upd p jv.2 ((i0 : Int) + (jv.1 : Int) + 1)
  | none => p

theorem charApply_some (upd : Player → Int → Int → Player) (i0 : Nat)
    (entries : List (Nat × Int)) (p : Player) (jv : Nat × Int)
    (h : lookupRank p.id_ entries = some jv) :
    charApply upd i0 entries p = upd p jv.2 ((i0 : Int) + (jv.1 : Int) + 1) := by
  unfold charApply; rw [h]

theorem charApply_none (upd : Player → Int → Int → Player) (i0 : Nat)
    (entries : List (Nat × Int)) (p : Player)
    (h : lookupRank p.id_ entries = none) :
    charApply upd i0 entries p = p := by
  unfold charApply; rw [h]

theorem charApply_zero_S (entries : List (Nat × Int)) (p : Player) :
    charApply updS 0 entries p = chiS entries p := by
  cases hl : lookupRank p.id_ entries with
  | none => rw [charApply_none updS 0 entries p hl]; unfold chiS; rw [hl]
  | some jv =>
    rw [charApply_some updS 0 entries p jv hl]
    unfold chiS; rw [hl]
    norm_num

theorem charApply_zero_D (entries : List (Nat × Int)) (p : Player) :
    charApply updD 0 entries p = chiD entries p := by
  cases hl : lookupRank p.id_ entries with
  | none => rw [charApply_none updD 0 entries p hl]; unfold chiD; rw [hl]
  | some jv =>
    rw [charApply_some updD 0 entries p jv hl]
    unfold chiD; rw [hl]
    norm_num

theorem assignRanks_char (upd : Player → Int → Int → Player)
    (hupd : ∀ p v k, (upd p v k).id_ = p.id_) (entries : List (Nat × Int)) :
    ∀ (i0 : Nat) (ps : List Player), (ps.map Player.id_).Nodup →
      (entries.map Prod.fst).Nodup →
      assignRanks upd i0 entries ps = ps.map (charApply upd i0 entries) := by
  induction entries with
  | nil =>
    intro i0 ps hps hent
    have hpt : ∀ p ∈ ps, charApply upd i0 [] p = id p := by
      intro p hp
      exact charApply_none upd i0 [] p rfl
    show ps = ps.map (charApply upd i0 [])
    rw [List.map_congr_left hpt, List.map_id]
  | cons e rest ih =>
    intro i0 ps hps hent
    rw [List.map_cons, List.nodup_cons] at hent
    have hstep : assignRanks upd i0 (e :: rest) ps =
        assignRanks upd (i0 + 1) rest
          (updateFirst e.1 (fun p => upd p e.2 ((i0 : Int) + 1)) ps) := rfl
    rw [hstep, updateFirst_char e.1 _ ps hps]
    have hid1 : ∀ p : Player,
        (if p.id_ == e.1 then upd p e.2 ((i0 : Int) + 1) else p).id_ = p.id_ := by
      intro p; by_cases h : p.id_ == e.1 <;> simp [h, hupd]
    have hps2 : (((ps.map fun p =>
        if p.id_ == e.1 then upd p e.2 ((i0 : Int) + 1) else p).map
          Player.id_)).Nodup := by
      rw [List.map_map, show (Player.id_ ∘ fun p =>
        if p.id_ == e.1 then upd p e.2 ((i0 : Int) + 1) else p) = Player.id_
        from funext hid1]
      exact hps
    rw [ih (i0 + 1) _ hps2 hent.2, List.map_map]
    apply List.map_congr_left
    intro p hp
    simp only [Function.comp]
    by_cases h : p.id_ == e.1
    · have hpe : p.id_ = e.1 := by simpa using h
      have hb : (e.1 == p.id_) = true := by simp [hpe]
      rw [if_pos h]
      have hnone : lookupRank (upd p e.2 ((i0 : Int) + 1)).id_ rest = none := by
        rw [hupd, hpe]
        exact lookupRank_none e.1 rest hent.1
      rw [charApply_none upd (i0 + 1) rest _ hnone]
      have hsome : lookupRank p.id_ (e :: rest) = some (0, e.2) := by
        simp [lookupRank, hb]
      rw [charApply_some upd i0 (e :: rest) p (0, e.2) hsome]
      norm_num
    · have hb : (e.1 == p.id_) = false := by
        have hne : p.id_ ≠ e.1 := by simpa using h
        exact beq_false_of_ne (Ne.symm hne)
      rw [if_neg h]
      have hLcons : lookupRank p.id_ (e :: rest) =
          (lookupRank p.id_ rest).map fun q => (q.1 + 1, q.2) := by
        simp [lookupRank, hb]
      cases hl : lookupRank p.id_ rest with
      | none =>
        rw [charApply_none upd (i0 + 1) rest p hl,
          charApply_none upd i0 (e :: rest) p (by rw [hLcons, hl]; rfl)]
      | some jv =>
        rw [charApply_some upd (i0 + 1) rest p jv hl,
          charApply_some upd i0 (e :: rest) p (jv.1 + 1, jv.2)
            (by rw [hLcons, hl]; rfl)]
        have harith : ((i0 + 1 : Nat) : Int) + (jv.1 : Int) + 1 =
            (i0 : Int) + ((jv.1 + 1 : Nat) : Int) + 1 := by push_cast; ring
        rw [harith]

theorem calculate_ranks_players (db : DB)
    (hnd : (db.players.map Player.id_).Nodup) :
    (Player.calculate_ranks db).players =
      db.players.map fun p =>
        chiD (classPoints db.mapTimes 4) (chiS (classPoints db.mapTimes 2) p) := by
  have hstep : (Player.calculate_ranks db).players =
      assignRanks updD 0 (classPoints db.mapTimes 4)
        (assignRanks updS 0 (classPoints db.mapTimes 2) db.players) := rfl
  rw [hstep,
    assignRanks_char updS (fun _ _ _ => rfl) (classPoints db.mapTimes 2) 0
      db.players hnd (classPoints_fst_nodup _ 2)]
  have hid1 : ∀ p : Player,
      (charApply updS 0 (classPoints db.mapTimes 2) p).id_ = p.id_ := by
    intro p
    rw [charApply_zero_S, chiS_id]
  have hnd2 : ((db.players.map
      (charApply updS 0 (classPoints db.mapTimes 2))).map Player.id_).Nodup := by
    rw [List.map_map, show (Player.id_ ∘
      charApply updS 0 (classPoints db.mapTimes 2)) = Player.id_
      from funext hid1]
    exact hnd
  rw [assignRanks_char updD (fun _ _ _ => rfl) (classPoints db.mapTimes 4) 0 _
    hnd2 (classPoints_fst_nodup _ 4), List.map_map]
  apply List.map_congr_left
  intro p hp
  simp only [Function.comp]
  rw [charApply_zero_S, charApply_zero_D]

theorem DB_ext (a b : DB) (h1 : a.mapTimes = b.mapTimes)
    (h2 : a.checkpointTimes = b.checkpointTimes)
    (h3 : a.checkpoints = b.checkpoints) (h4 : a.players = b.players)
    (h5 : a.maps = b.maps) (h6 : a.next_id = b.next_id) : a = b := by
  cases a; cases b; simp_all

theorem chi_pair_idem (sp dp : List (Nat × Int)) (p : Player) :
    chiD dp (chiS sp (chiD dp (chiS sp p))) = chiD dp (chiS sp p) := by
  cases hS : lookupRank p.id_ sp with
  | none =>
    cases hD : lookupRank p.id_ dp with
    | none => simp [chiS, chiD, hS, hD]
    | some jv => simp [chiS, chiD, updS, updD, hS, hD]
  | some jv1 =>
    cases hD : lookupRank p.id_ dp with
    | none => simp [chiS, chiD, updS, updD, hS, hD]
    | some jv2 => simp [chiS, chiD, updS, updD, hS, hD]

theorem calculate_ranks_idem (db : DB)
    (hnd : (db.players.map Player.id_).Nodup) :
    Player.calculate_ranks (Player.calculate_ranks db) =
      Player.calculate_ranks db := by
  have hpl := calculate_ranks_players db hnd
  have hid2 : ∀ p : Player,
      (chiD (classPoints db.mapTimes 4)
        (chiS (classPoints db.mapTimes 2) p)).id_ = p.id_ := by
    intro p; rw [chiD_id, chiS_id]
  have hnd2 : ((Player.calculate_ranks db).players.map Player.id_).Nodup := by
    rw [hpl, List.map_map, show (Player.id_ ∘ fun p =>
      chiD (classPoints db.mapTimes 4) (chiS (classPoints db.mapTimes 2) p))
      = Player.id_ from funext hid2]
    exact hnd
  have hpl2 := calculate_ranks_players (Player.calculate_ranks db) hnd2
  apply DB_ext
  · rfl
  · rfl
  · rfl
  · rw [hpl2,
      show (Player.calculate_ranks db).mapTimes = db.mapTimes from rfl,
      hpl, List.map_map]
    apply List.map_congr_left
    intro p hp
    simp only [Function.comp]
    exact chi_pair_idem _ _ p
  · rfl
  · rfl

/-! ### MapTimes.add: branch characterizations -/

theorem mkSplits_time_id (cps : List MapCheckpoint) (m rid : Nat)
    (entries : List CpEntry) :
    ∀ s ∈ mkSplits cps m rid entries, s.time_id = rid := by
  intro s hs
  unfold mkSplits at hs
  obtain ⟨e, he, hmap⟩ := List.mem_filterMap.mp hs
  cases hfind : cps.find? fun mc => mc.map_id == m && mc.cp_index == e.cp_index with
  | none => rw [hfind] at hmap; simp at hmap
  | some mc =>
    rw [hfind] at hmap
    simp only [Option.map_some'] at hmap
    cases Option.some.inj hmap
    rfl

theorem add_replace_fst (cp : Int → Int → Nat → Int) (db : DB) (c : Candidate)
    (entries : List CpEntry) (q : MapTimes)
    (hq : (db.mapTimes.filter fun r => r.map_id == c.map_id).head? = some q)
    (hlt : c.end_time - c.start_time < q.end_time - q.start_time) :
    (MapTimes.add cp db c entries).1 =
      (MapTimes.update_ranks cp c.map_id
        (replaceCommit2 (replaceCommit1 db c entries q) q)).1 := by
  simp only [MapTimes.add, hq]
  rw [if_pos hlt]
  split <;> rfl

theorem add_replace_result (cp : Int → Int → Nat → Int) (db : DB) (c : Candidate)
    (entries : List CpEntry) (q : MapTimes)
    (hq : (db.mapTimes.filter fun r => r.map_id == c.map_id).head? = some q)
    (hlt : c.end_time - c.start_time < q.end_time - q.start_time) :
    (MapTimes.add cp db c entries).2.result = InsertResult.UPDATED := by
  simp only [MapTimes.add, hq]
  rw [if_pos hlt]
  split <;> rfl

theorem add_reject_eq (cp : Int → Int → Nat → Int) (db : DB) (c : Candidate)
    (entries : List CpEntry) (q : MapTimes)
    (hq : (db.mapTimes.filter fun r => r.map_id == c.map_id).head? = some q)
    (hge : ¬ (c.end_time - c.start_time < q.end_time - q.start_time)) :
    MapTimes.add cp db c entries =
      (db, AddOutcome.rejected c.duration
        (MapTimes.get_records db.mapTimes c.map_id)
        (q.end_time - q.start_time)) := by
  simp only [MapTimes.add, hq]
  rw [if_neg hge]

/-! ### Claims -/

/-- A concrete stand-in for the injected points formula, used only to
evaluate the engine at concrete inputs. -/
def cp0 : Int → Int → Nat → Int := fun _ _ _ => 10

def db1 : DB := ⟨[⟨1, 1, 1, 2, 0, 100, 100, some 1, some 10⟩], [], [],
  [⟨1, 10, 0, 1, 0⟩, ⟨2, 0, 0, 0, 0⟩], [], 2⟩

def cand1 : Candidate := ⟨1, 2, 2, 0, 80, 80⟩

/-- Claim C1, refuted by evaluating the code at a failing input: the spec
requires the existing-run lookup of MapTimes.add to match on (map_id,
player_id, player_class), so that the ADD branch is taken exactly when no
run for that triple exists and at most one run per triple is kept. In the
source the three comparisons are joined with the Python `and` operator,
which collapses the executed filter to map_id alone. In db1 the only run
on map 1 belongs to player 1; the submission cand1 by player 2 (class 2)
has no run for its own triple, so the claim demands the ADD branch — but
the code finds player 1's run, takes the REPLACE branch (80 < 100),
returns UPDATED and deletes player 1's run. -/
theorem c1_add_branch_eval :
    db1.mapTimes.filter
      (fun r => r.map_id == 1 && r.player_id == 2 && r.player_class == 2) = []
    ∧ (MapTimes.add cp0 db1 cand1 []).2.result = InsertResult.UPDATED
    ∧ (MapTimes.add cp0 db1 cand1 []).1.mapTimes.filter
        (fun r => r.player_id == 1) = [] := by
  decide

def db3 : DB := ⟨[⟨1, 1, 1, 2, 0, 100, 100, some 1, some 10⟩,
  ⟨2, 1, 1, 4, 0, 90, 90, some 1, some 10⟩], [], [], [⟨1, 20, 0, 1, 0⟩], [], 3⟩

def cand3 : Candidate := ⟨1, 1, 4, 0, 95, 95⟩

/-- Claim C3, refuted by evaluating the code at a failing input: db3 holds
player 1's class-2 run (duration 100) and class-4 run (duration 90).
Resubmission cand3 (class 4, duration 95) is slower than the stored run of
the same (map, player, class), so the claim demands the Rejected outcome
(InsertResult.NONE) and no mutation of any table. Because the lookup
filter collapsed to map_id alone (Python `and`), the code compares against
the class-2 run (95 < 100), takes REPLACE, returns UPDATED and mutates the
runs table. -/
theorem c3_reject_bypassed :
    (∃ q ∈ db3.mapTimes, q.map_id = cand3.map_id ∧
      q.player_id = cand3.player_id ∧ q.player_class = cand3.player_class ∧
      q.end_time - q.start_time ≤ cand3.end_time - cand3.start_time)
    ∧ (MapTimes.add cp0 db3 cand3 []).2.result = InsertResult.UPDATED
    ∧ (MapTimes.add cp0 db3 cand3 []).1.mapTimes ≠ db3.mapTimes := by
  decide

def dbC4 : DB := ⟨[], [], [], [⟨1, 5, 0, 1, 0⟩], [], 1⟩

/-- Claim C4 counterexample: in dbC4 the single player has no runs at all,
hence zero summed points in class 2, yet after Player.calculate_ranks
their stored soldier rank is still 1 and points 5. The claim required
every player with no positive summed points to end with rank 0 and
points 0; the loop only overwrites players found in the per-class ranking
list and never resets the others. -/
theorem c4_counterexample :
    classPoints dbC4.mapTimes 2 = []
    ∧ (Player.calculate_ranks dbC4).players.map Player.s_rank = [1]
    ∧ (Player.calculate_ranks dbC4).players.map Player.s_points = [5] := by
  decide

/-- Claim C4 (amended): after every run of Player.calculate_ranks, each
player found in the per-class ranking list — the players with at least one
positive-points run of that class, keyed by grouping order and sorted by
descending sum of those positive-points rows — receives that sum as
points[class] and their 1-based position as rank[class] (chiS / chiD);
every player absent from the list keeps both previous values unchanged
(no reset to zero). The ranking lists are sorted descending and contain
only positive sums. -/
theorem c4_calculate_ranks_char (db : DB)
    (hnd : (db.players.map Player.id_).Nodup) :
    ((Player.calculate_ranks db).players =
      db.players.map fun p =>
        chiD (classPoints db.mapTimes 4) (chiS (classPoints db.mapTimes 2) p))
    ∧ List.Sorted ptsDesc (classPoints db.mapTimes 2)
    ∧ List.Sorted ptsDesc (classPoints db.mapTimes 4)
    ∧ (∀ e ∈ classPoints db.mapTimes 2, 0 < e.2)
    ∧ (∀ e ∈ classPoints db.mapTimes 4, 0 < e.2) :=
  ⟨calculate_ranks_players db hnd, classPoints_sorted _ 2,
    classPoints_sorted _ 4, classPoints_pos _ 2, classPoints_pos _ 4⟩

def dbW4 : DB := ⟨[⟨1, 1, 5, 2, 0, 10, 10, some 1, some 7⟩], [], [],
  [⟨5, 0, 0, 0, 0⟩, ⟨6, 3, 0, 2, 0⟩], [], 2⟩

/-- Witness for the amended claim C4 at a concrete state. -/
theorem c4_witness :
    ((Player.calculate_ranks dbW4).players =
      dbW4.players.map fun p =>
        chiD (classPoints dbW4.mapTimes 4) (chiS (classPoints dbW4.mapTimes 2) p))
    ∧ List.Sorted ptsDesc (classPoints dbW4.mapTimes 2)
    ∧ List.Sorted ptsDesc (classPoints dbW4.mapTimes 4)
    ∧ (∀ e ∈ classPoints dbW4.mapTimes 2, 0 < e.2)
    ∧ (∀ e ∈ classPoints dbW4.mapTimes 4, 0 < e.2) :=
  c4_calculate_ranks_char dbW4 (by decide)

def db8 : DB := ⟨[⟨1, 2, 7, 2, 0, 50, 50, some 1, some 10⟩], [], [],
  [⟨7, 0, 0, 0, 0⟩], [], 2⟩

/-- Claim C8 counterexample: map 1 has an empty leaderboard for both
classes, and update_ranks does return completion count 0 for each class —
but it does not perform "no writes at all": it unconditionally invokes the
global Player.calculate_ranks, which here rescans the run of map 2 and
rewrites player 7's soldier points and rank. -/
theorem c8_counterexample :
    lbRows 1 2 db8.mapTimes = [] ∧ lbRows 1 4 db8.mapTimes = []
    ∧ (MapTimes.update_ranks cp0 1 db8).2 = (0, 0)
    ∧ (MapTimes.update_ranks cp0 1 db8).1.players ≠ db8.players := by
  decide

/-- Claim C8 (amended): when both class leaderboards of the map are empty,
update_ranks returns completion count 0 for each class and leaves the runs
table completely unchanged; however it still performs the unconditional
global player-aggregate recompute, so the final state is exactly
Player.calculate_ranks of the input (which can modify player rows). -/
theorem c8_empty_map_recompute (cp : Int → Int → Nat → Int) (m : Nat)
    (db : DB) (h2 : lbRows m 2 db.mapTimes = [])
    (h4 : lbRows m 4 db.mapTimes = []) :
    (MapTimes.update_ranks cp m db).2 = (0, 0)
    ∧ (MapTimes.update_ranks cp m db).1.mapTimes = db.mapTimes
    ∧ (MapTimes.update_ranks cp m db).1 = Player.calculate_ranks db := by
  have ha2 : applyLeaderboard cp m 2 db.mapTimes = db.mapTimes :=
    applyLeaderboard_of_empty cp m 2 _ h2
  have ha4 : applyLeaderboard cp m 4 db.mapTimes = db.mapTimes :=
    applyLeaderboard_of_empty cp m 4 _ h4
  refine ⟨?_, ?_, ?_⟩
  · simp [update_ranks_snd, ha2, h2, h4]
  · rw [update_ranks_mapTimes, ha2, ha4]
  · have hconv : (MapTimes.update_ranks cp m db).1 =
        Player.calculate_ranks
          { db with
              mapTimes :=
                applyLeaderboard cp m 4 (applyLeaderboard cp m 2 db.mapTimes) } :=
      rfl
    rw [hconv, ha2, ha4]

/-- Witness for the amended claim C8 at a concrete state (db8: map 1 has
no runs, but a run exists on map 2). -/
theorem c8_witness :
    (MapTimes.update_ranks cp0 1 db8).2 = (0, 0)
    ∧ (MapTimes.update_ranks cp0 1 db8).1.mapTimes = db8.mapTimes
    ∧ (MapTimes.update_ranks cp0 1 db8).1 = Player.calculate_ranks db8 :=
  c8_empty_map_recompute cp0 1 db8 (by decide) (by decide)

/-- Claim C9 (spec-modelled: the input validation of the Submission Engine
lives in the API layer, which is not among the provided sources — only
MapTimes.add is; `submit` models it from spec 4.1/7): a submission whose
end_time is strictly smaller than its start_time fails with InvalidInput
before any read or mutation — the error is returned without consulting or
changing the database, and MapTimes.add is never entered. -/
theorem c9_invalid_duration (cp : Int → Int → Nat → Int) (db : DB)
    (c : Candidate) (entries : List CpEntry)
    (h : c.end_time < c.start_time) :
    submit cp db c entries = Except.error SubmitError.invalidInput := by
  unfold submit
  rw [if_pos h]

/-- Witness for claim C9 at a concrete input. -/
theorem c9_witness :
    ((5 : Int) < 10)
    ∧ submit cp0 db8 ⟨1, 7, 2, 10, 5, -5⟩ [] =
        Except.error SubmitError.invalidInput :=
  ⟨by decide, c9_invalid_duration cp0 db8 ⟨1, 7, 2, 10, 5, -5⟩ [] (by decide)⟩

theorem applyLeaderboard_spec (cp : Int → Int → Nat → Int) (m cls : Nat)
    (tbl : List MapTimes)
    (hnd : ((lbRows m cls tbl).map MapTimes.id_).Nodup)
    (hne : lbRows m cls tbl ≠ []) :
    List.Perm
      ((lbRows m cls (applyLeaderboard cp m cls tbl)).map MapTimes.rank)
      ((List.range (lbRows m cls tbl).length).map fun i : Nat =>
        some ((i : Int) + 1))
    ∧ (∀ r1 ∈ lbRows m cls (applyLeaderboard cp m cls tbl),
        ∀ r2 ∈ lbRows m cls (applyLeaderboard cp m cls tbl),
          ∀ i j : Int, r1.rank = some i → r2.rank = some j → i < j →
            r1.duration ≤ r2.duration)
    ∧ (∃ r1 ∈ lbRows m cls (applyLeaderboard cp m cls tbl),
        r1.rank = some 1 ∧
          ∀ r ∈ lbRows m cls (applyLeaderboard cp m cls tbl),
            r.points = some (cp r1.duration r.duration
              (lbRows m cls tbl).length)) := by
  have hne2 : lbTimes m cls tbl ≠ [] := by
    intro h0
    apply hne
    have hl := (lbTimes_perm m cls tbl).length_eq
    rw [h0] at hl
    exact List.length_eq_zero.mp hl.symm
  obtain ⟨fst, ts, hts⟩ := List.exists_cons_of_ne_nil hne2
  have hhead : (lbTimes m cls tbl).head? = some fst := by rw [hts]; rfl
  exact ⟨ranks_perm_of_fetched cp m cls tbl _ fst (lbTimes_perm m cls tbl)
      hhead hnd,
    rank_mono_of_fetched cp m cls tbl _ fst (lbTimes_perm m cls tbl)
      (lbTimes_sorted m cls tbl) hhead hnd,
    points_of_fetched cp m cls tbl _ fst (lbTimes_perm m cls tbl) hhead hnd⟩

/-- Claim C2: after MapTimes.update_ranks on a non-empty (map, class)
leaderboard (soldier = class 2 or demoman = class 4), the ranks of that
leaderboard's runs are exactly 1..N with no gaps or duplicates (as a
permutation of the range), a run with smaller rank never has a larger
duration, and there is a rank-1 run r1 such that every run r of the
leaderboard carries points = calc_points(r1.duration, r.duration, N),
N the leaderboard size. Primary keys are assumed pairwise distinct
(primary-key uniqueness of the store). -/
theorem c2_update_ranks_leaderboard (cp : Int → Int → Nat → Int)
    (m cls : Nat) (db : DB) (hcls : cls = 2 ∨ cls = 4)
    (hnd : ((lbRows m cls db.mapTimes).map MapTimes.id_).Nodup)
    (hne : lbRows m cls db.mapTimes ≠ []) :
    List.Perm
      ((lbRows m cls (MapTimes.update_ranks cp m db).1.mapTimes).map
        MapTimes.rank)
      ((List.range (lbRows m cls db.mapTimes).length).map fun i : Nat =>
        some ((i : Int) + 1))
    ∧ (∀ r1 ∈ lbRows m cls (MapTimes.update_ranks cp m db).1.mapTimes,
        ∀ r2 ∈ lbRows m cls (MapTimes.update_ranks cp m db).1.mapTimes,
          ∀ i j : Int, r1.rank = some i → r2.rank = some j → i < j →
            r1.duration ≤ r2.duration)
    ∧ (∃ r1 ∈ lbRows m cls (MapTimes.update_ranks cp m db).1.mapTimes,
        r1.rank = some 1 ∧
          ∀ r ∈ lbRows m cls (MapTimes.update_ranks cp m db).1.mapTimes,
            r.points = some (cp r1.duration r.duration
              (lbRows m cls db.mapTimes).length)) := by
  rcases hcls with rfl | rfl
  · have hfin : lbRows m 2 (MapTimes.update_ranks cp m db).1.mapTimes =
        lbRows m 2 (applyLeaderboard cp m 2 db.mapTimes) := by
      rw [update_ranks_mapTimes]
      exact applyLeaderboard_lbRows_other cp m 4 m 2 _ (by omega)
    obtain ⟨h1, h2, h3⟩ := applyLeaderboard_spec cp m 2 db.mapTimes hnd hne
    rw [hfin]
    exact ⟨h1, h2, h3⟩
  · have ht1 : lbRows m 4 (applyLeaderboard cp m 2 db.mapTimes) =
        lbRows m 4 db.mapTimes :=
      applyLeaderboard_lbRows_other cp m 2 m 4 _ (by omega)
    have hfin : lbRows m 4 (MapTimes.update_ranks cp m db).1.mapTimes =
        lbRows m 4 (applyLeaderboard cp m 4
          (applyLeaderboard cp m 2 db.mapTimes)) := by
      rw [update_ranks_mapTimes]
    obtain ⟨h1, h2, h3⟩ := applyLeaderboard_spec cp m 4
      (applyLeaderboard cp m 2 db.mapTimes) (by rw [ht1]; exact hnd)
      (by rw [ht1]; exact hne)
    rw [hfin, ← ht1]
    exact ⟨h1, h2, h3⟩

def dbW2 : DB := ⟨[⟨1, 1, 1, 2, 0, 10, 10, none, none⟩,
  ⟨2, 1, 2, 2, 0, 8, 8, none, none⟩], [], [],
  [⟨1, 0, 0, 0, 0⟩, ⟨2, 0, 0, 0, 0⟩], [], 3⟩

/-- Witness for claim C2 at a concrete two-run leaderboard. -/
theorem c2_witness :
    List.Perm
      ((lbRows 1 2 (MapTimes.update_ranks cp0 1 dbW2).1.mapTimes).map
        MapTimes.rank)
      ((List.range (lbRows 1 2 dbW2.mapTimes).length).map fun i : Nat =>
        some ((i : Int) + 1))
    ∧ (∀ r1 ∈ lbRows 1 2 (MapTimes.update_ranks cp0 1 dbW2).1.mapTimes,
        ∀ r2 ∈ lbRows 1 2 (MapTimes.update_ranks cp0 1 dbW2).1.mapTimes,
          ∀ i j : Int, r1.rank = some i → r2.rank = some j → i < j →
            r1.duration ≤ r2.duration)
    ∧ (∃ r1 ∈ lbRows 1 2 (MapTimes.update_ranks cp0 1 dbW2).1.mapTimes,
        r1.rank = some 1 ∧
          ∀ r ∈ lbRows 1 2 (MapTimes.update_ranks cp0 1 dbW2).1.mapTimes,
            r.points = some (cp0 r1.duration r.duration
              (lbRows 1 2 dbW2.mapTimes).length)) :=
  c2_update_ranks_leaderboard cp0 1 2 dbW2 (Or.inl rfl) (by decide) (by decide)

/-- Claim C5: in the REPLACE branch of MapTimes.add the deletion is
two-phase and child-first. At the first committed state every split of
the old run q is already gone while q itself is still present (the new
run's splits reference the fresh id, not q's); the second committed state
removes exactly the run rows keyed by q's id and leaves the split table
untouched; MapTimes.add reaches its final state through exactly these two
commits followed by the recompute; and in the final state zero split rows
reference the deleted run. Fresh-id hypothesis: the autoincrement counter
exceeds every stored run id. -/
theorem c5_two_phase_delete (cp : Int → Int → Nat → Int) (db : DB)
    (c : Candidate) (entries : List CpEntry) (q : MapTimes)
    (hq : (db.mapTimes.filter fun r => r.map_id == c.map_id).head? = some q)
    (hlt : c.end_time - c.start_time < q.end_time - q.start_time)
    (hfresh : ∀ r ∈ db.mapTimes, r.id_ < db.next_id) :
    q ∈ (replaceCommit1 db c entries q).mapTimes
    ∧ (∀ s ∈ (replaceCommit1 db c entries q).checkpointTimes,
        s.time_id ≠ q.id_)
    ∧ (∀ r ∈ (replaceCommit2 (replaceCommit1 db c entries q) q).mapTimes,
        r.id_ ≠ q.id_)
    ∧ (replaceCommit2 (replaceCommit1 db c entries q) q).checkpointTimes =
        (replaceCommit1 db c entries q).checkpointTimes
    ∧ (MapTimes.add cp db c entries).1 =
        (MapTimes.update_ranks cp c.map_id
          (replaceCommit2 (replaceCommit1 db c entries q) q)).1
    ∧ (∀ s ∈ (MapTimes.add cp db c entries).1.checkpointTimes,
        s.time_id ≠ q.id_) := by
  have hqdb : q ∈ db.mapTimes :=
    (List.mem_filter.mp (List.mem_of_mem_head? hq)).1
  have hsplit : ∀ s ∈ (replaceCommit1 db c entries q).checkpointTimes,
      s.time_id ≠ q.id_ := by
    intro s hs
    rcases List.mem_append.mp hs with h | h
    · have hb := (List.mem_filter.mp h).2
      simpa using hb
    · have hsid : s.time_id = db.next_id :=
        mkSplits_time_id db.checkpoints c.map_id db.next_id entries s h
      have hqlt : q.id_ < db.next_id := hfresh q hqdb
      omega
  refine ⟨List.mem_append_left _ hqdb, hsplit, ?_, rfl,
    add_replace_fst cp db c entries q hq hlt, ?_⟩
  · intro r hr
    have hb := (List.mem_filter.mp hr).2
    simpa using hb
  · intro s hs
    rw [add_replace_fst cp db c entries q hq hlt,
      update_ranks_checkpointTimes] at hs
    exact hsplit s hs

def dbW5 : DB := ⟨[⟨1, 1, 1, 2, 0, 10, 10, some 1, some 10⟩], [⟨9, 1, 3⟩],
  [⟨9, 1, 0⟩], [⟨1, 10, 0, 1, 0⟩], [], 2⟩

def candW5 : Candidate := ⟨1, 1, 2, 0, 8, 8⟩

def qW5 : MapTimes := ⟨1, 1, 1, 2, 0, 10, 10, some 1, some 10⟩

/-- Witness for claim C5 at a concrete replacement (one old run owning one
split). -/
theorem c5_witness :
    qW5 ∈ (replaceCommit1 dbW5 candW5 [] qW5).mapTimes
    ∧ (∀ s ∈ (replaceCommit1 dbW5 candW5 [] qW5).checkpointTimes,
        s.time_id ≠ qW5.id_)
    ∧ (∀ r ∈ (replaceCommit2 (replaceCommit1 dbW5 candW5 [] qW5) qW5).mapTimes,
        r.id_ ≠ qW5.id_)
    ∧ (replaceCommit2 (replaceCommit1 dbW5 candW5 [] qW5) qW5).checkpointTimes =
        (replaceCommit1 dbW5 candW5 [] qW5).checkpointTimes
    ∧ (MapTimes.add cp0 dbW5 candW5 []).1 =
        (MapTimes.update_ranks cp0 candW5.map_id
          (replaceCommit2 (replaceCommit1 dbW5 candW5 [] qW5) qW5)).1
    ∧ (∀ s ∈ (MapTimes.add cp0 dbW5 candW5 []).1.checkpointTimes,
        s.time_id ≠ qW5.id_) :=
  c5_two_phase_delete cp0 dbW5 candW5 [] qW5 (by decide) (by decide) (by decide)

def r1C6 : MapTimes := ⟨1, 1, 1, 2, 0, 5, 5, none, none⟩

def r2C6 : MapTimes := ⟨2, 1, 2, 2, 0, 5, 5, none, none⟩

/-- Claim C6 counterexample: the fetch in the source is
order_by(MapTimes.duration) with no secondary sort key, so the query
constrains the returned order only up to ordByDuration. With two
equal-duration runs, the fetched order [r2C6, r1C6] (larger id first)
satisfies everything the query specifies, and ranking from it gives
rank 1 to the run with the larger id and rank 2 to the smaller — the
claimed deterministic id tie-break is not a property of the query. -/
theorem c6_counterexample :
    ordByDuration (lbRows 1 2 [r1C6, r2C6]) [r2C6, r1C6]
    ∧ r1C6.id_ < r2C6.id_
    ∧ r1C6.duration = r2C6.duration
    ∧ (findRun (rankFromFetched cp0 1 2 [r2C6, r1C6] [r1C6, r2C6]) 2).bind
        MapTimes.rank = some 1
    ∧ (findRun (rankFromFetched cp0 1 2 [r2C6, r1C6] [r1C6, r2C6]) 1).bind
        MapTimes.rank = some 2 := by
  decide

/-- Claim C6 (amended): the recompute fetches the (map, class) runs
ordered by ascending duration; duration is the query's sole sort key
(ordByDuration is exactly the constraint the query places on the storage
layer, so the tie order among equal durations is storage-determined,
not an implementation choice). For every fetch order satisfying that
constraint, the assigned ranks are strictly monotone in strict duration
order — a strictly faster run receives a strictly smaller rank whichever
valid order the storage returns — and the deterministic model's own fetch
(the stable sort) satisfies the constraint. -/
theorem c6_fetch_order_contract (cp : Int → Int → Nat → Int) (m cls : Nat)
    (tbl times : List MapTimes) (fst : MapTimes)
    (hord : ordByDuration (lbRows m cls tbl) times)
    (hhead : times.head? = some fst)
    (hnd : ((lbRows m cls tbl).map MapTimes.id_).Nodup) :
    ordByDuration (lbRows m cls tbl) (lbTimes m cls tbl)
    ∧ (∀ r1 ∈ lbRows m cls (rankFromFetched cp m cls times tbl),
        ∀ r2 ∈ lbRows m cls (rankFromFetched cp m cls times tbl),
          r1.duration < r2.duration →
            ∀ i j : Int, r1.rank = some i → r2.rank = some j → i < j) :=
  ⟨⟨lbTimes_perm m cls tbl, lbTimes_sorted m cls tbl⟩,
    strict_rank_of_fetched cp m cls tbl times fst hord.1 hord.2 hhead hnd⟩

def tblW6 : List MapTimes := [⟨1, 1, 1, 2, 0, 5, 5, none, none⟩,
  ⟨2, 1, 2, 2, 0, 3, 3, none, none⟩]

def timesW6 : List MapTimes := [⟨2, 1, 2, 2, 0, 3, 3, none, none⟩,
  ⟨1, 1, 1, 2, 0, 5, 5, none, none⟩]

/-- Witness for the amended claim C6 at a concrete fetch order. -/
theorem c6_witness :
    ordByDuration (lbRows 1 2 tblW6) (lbTimes 1 2 tblW6)
    ∧ (∀ r1 ∈ lbRows 1 2 (rankFromFetched cp0 1 2 timesW6 tblW6),
        ∀ r2 ∈ lbRows 1 2 (rankFromFetched cp0 1 2 timesW6 tblW6),
          r1.duration < r2.duration →
            ∀ i j : Int, r1.rank = some i → r2.rank = some j → i < j) :=
  c6_fetch_order_contract cp0 1 2 tblW6 timesW6 ⟨2, 1, 2, 2, 0, 3, 3, none, none⟩
    (by decide) (by decide) (by decide)

/-- Two sorted permutations of each other agree when the order is
antisymmetric on their members. -/
theorem sorted_perm_eq {α : Type} (r : α → α → Prop) :
    ∀ (l1 l2 : List α), List.Perm l1 l2 → List.Sorted r l1 →
      List.Sorted r l2 →
      (∀ a ∈ l1, ∀ b ∈ l1, r a b → r b a → a = b) → l1 = l2 := by
  intro l1
  induction l1 with
  | nil =>
    intro l2 hperm _ _ _
    exact (hperm.symm.eq_nil).symm
  | cons a t ih =>
    intro l2 hperm hs1 hs2 hanti
    cases l2 with
    | nil => exact absurd hperm.length_eq (by simp)
    | cons b t2 =>
      have hab : a = b := by
        have hbmem : b ∈ a :: t := hperm.mem_iff.mpr (List.mem_cons_self b t2)
        rcases List.mem_cons.mp hbmem with h | h
        · exact h.symm
        · have hamem : a ∈ b :: t2 := hperm.mem_iff.mp (List.mem_cons_self a t)
          rcases List.mem_cons.mp hamem with h2 | h2
          · exact h2
          · have hr1 : r a b := List.rel_of_sorted_cons hs1 b h
            have hr2 : r b a := List.rel_of_sorted_cons hs2 a h2
            exact hanti a (List.mem_cons_self a t) b hbmem hr1 hr2
      subst hab
      have ht : t = t2 := ih t2 hperm.cons_inv hs1.of_cons hs2.of_cons
        fun x hx y hy => hanti x (List.mem_cons_of_mem a hx) y
          (List.mem_cons_of_mem a hy)
      rw [ht]

/-- When the durations of a leaderboard are pairwise distinct, the query
order_by(duration) admits exactly one result order: any fetch consistent
with it is the stable sort, so the deterministic model is forced, not a
refinement. -/
theorem ordByDuration_unique (m cls : Nat) (tbl times : List MapTimes)
    (hdnd : ((lbRows m cls tbl).map MapTimes.duration).Nodup)
    (hord : ordByDuration (lbRows m cls tbl) times) :
    times = lbTimes m cls tbl := by
  apply sorted_perm_eq durRel times (lbTimes m cls tbl)
    (hord.1.trans (lbTimes_perm m cls tbl).symm) hord.2
    (lbTimes_sorted m cls tbl)
  intro x hx y hy hr1 hr2
  have hxm : x ∈ lbRows m cls tbl := hord.1.mem_iff.mp hx
  have hym : y ∈ lbRows m cls tbl := hord.1.mem_iff.mp hy
  have hde : x.duration = y.duration := le_antisymm hr1 hr2
  exact List.inj_on_of_nodup_map hdnd hxm hym hde

/-- When the per-player summed points are pairwise distinct, the query
order_by(desc(points)) admits exactly one result order. -/
theorem ordByPtsDesc_unique (tbl : List MapTimes) (cls : Nat)
    (fetched : List (Nat × Int))
    (hsnd : ((classSums tbl cls).map Prod.snd).Nodup)
    (hord : ordByPtsDesc (classSums tbl cls) fetched) :
    fetched = classPoints tbl cls := by
  have hperm : List.Perm (classPoints tbl cls) (classSums tbl cls) :=
    List.perm_insertionSort ptsDesc _
  apply sorted_perm_eq ptsDesc fetched (classPoints tbl cls)
    (hord.1.trans hperm.symm) hord.2 (classPoints_sorted tbl cls)
  intro x hx y hy hr1 hr2
  have hxm : x ∈ classSums tbl cls := hord.1.mem_iff.mp hx
  have hym : y ∈ classSums tbl cls := hord.1.mem_iff.mp hy
  have hde : x.2 = y.2 := le_antisymm hr2 hr1
  exact List.inj_on_of_nodup_map hsnd hxm hym hde

theorem applyLeaderboard_lb_durations (cp : Int → Int → Nat → Int)
    (m cls : Nat) (t : List MapTimes) :
    (lbRows m cls (applyLeaderboard cp m cls t)).map MapTimes.duration =
      (lbRows m cls t).map MapTimes.duration := by
  cases hE : (lbTimes m cls t).head? with
  | none =>
    have hTnil : lbTimes m cls t = [] := List.head?_eq_none_iff.mp hE
    have hOnil : lbRows m cls t = [] := by
      have hl := (lbTimes_perm m cls t).length_eq
      rw [hTnil] at hl
      exact List.length_eq_zero.mp hl.symm
    rw [applyLeaderboard_of_empty cp m cls t hOnil]
  | some fst =>
    rw [lbRows_applyLeaderboard cp m cls t fst hE, List.map_map]
    exact List.map_congr_left fun r hr => rankUpd_duration cp _ fst.duration r

/-- The recompute never changes a duration, so the leaderboard's duration
sequence (and hence tie-freeness) is the same before the first call and
before the second. -/
theorem update_ranks_lb_durations (cp : Int → Int → Nat → Int) (m cls : Nat)
    (db : DB) (hcls : cls = 2 ∨ cls = 4) :
    (lbRows m cls (MapTimes.update_ranks cp m db).1.mapTimes).map
        MapTimes.duration =
      (lbRows m cls db.mapTimes).map MapTimes.duration := by
  rw [update_ranks_mapTimes]
  rcases hcls with rfl | rfl
  · rw [applyLeaderboard_lbRows_other cp m 4 m 2 _ (by omega)]
    exact applyLeaderboard_lb_durations cp m 2 db.mapTimes
  · rw [applyLeaderboard_lb_durations cp m 4
      (applyLeaderboard cp m 2 db.mapTimes),
      applyLeaderboard_lbRows_other cp m 2 m 4 db.mapTimes (by omega)]

theorem update_ranks_idem (cp : Int → Int → Nat → Int) (m : Nat) (db : DB)
    (hnd : (db.players.map Player.id_).Nodup) :
    (MapTimes.update_ranks cp m (MapTimes.update_ranks cp m db).1).1 =
      (MapTimes.update_ranks cp m db).1 := by
  have h1 : (MapTimes.update_ranks cp m db).1 =
      Player.calculate_ranks
        { db with
            mapTimes :=
              applyLeaderboard cp m 4 (applyLeaderboard cp m 2 db.mapTimes) } :=
    rfl
  have hs1mt : (MapTimes.update_ranks cp m db).1.mapTimes =
      applyLeaderboard cp m 4 (applyLeaderboard cp m 2 db.mapTimes) :=
    update_ranks_mapTimes cp m db
  have h2 : (MapTimes.update_ranks cp m (MapTimes.update_ranks cp m db).1).1 =
      Player.calculate_ranks
        { (MapTimes.update_ranks cp m db).1 with
            mapTimes :=
              applyLeaderboard cp m 4 (applyLeaderboard cp m 2
                (MapTimes.update_ranks cp m db).1.mapTimes) } :=
    rfl
  rw [h2, hs1mt, applyLeaderboard_idem_pair cp m db.mapTimes, ← hs1mt]
  show Player.calculate_ranks (MapTimes.update_ranks cp m db).1 =
    (MapTimes.update_ranks cp m db).1
  rw [h1]
  exact calculate_ranks_idem _ hnd

def tblC7 : List MapTimes := [⟨1, 1, 1, 2, 0, 5, 5, none, none⟩,
  ⟨2, 1, 2, 2, 0, 5, 5, none, none⟩]

def fetchC7b : List MapTimes := [⟨2, 1, 2, 2, 0, 5, 5, some 2, some 10⟩,
  ⟨1, 1, 1, 2, 0, 5, 5, some 1, some 10⟩]

/-- Claim C7 counterexample: two runs share duration 5. The first
recompute pass fetches them in table order (the stable sort, a valid
result of order_by(duration)) and gives run 1 rank 1. The query fixes no
tie order, so the second pass may legally fetch the updated rows in the
opposite order — fetchC7b is a permutation of the updated leaderboard and
is sorted by duration, i.e., consistent with everything the query
specifies — and then run 1's rank becomes 2. Calling the recompute twice
with no intervening submission can therefore change a run's rank,
refuting the claimed unconditional idempotence: the program provides no
cross-call tie-order stability. -/
theorem c7_counterexample :
    lbTimes 1 2 tblC7 = tblC7
    ∧ ordByDuration (lbRows 1 2 tblC7) tblC7
    ∧ ordByDuration (lbRows 1 2 (rankFromFetched cp0 1 2 tblC7 tblC7))
        fetchC7b
    ∧ (findRun (rankFromFetched cp0 1 2 tblC7 tblC7) 1).bind
        MapTimes.rank = some 1
    ∧ (findRun (rankFromFetched cp0 1 2 fetchC7b
        (rankFromFetched cp0 1 2 tblC7 tblC7)) 1).bind
          MapTimes.rank = some 2 := by
  decide

/-- Claim C7 (amended): recompute is idempotent exactly on the states
where its queries determine the fetch order. Under pairwise-distinct
durations in both class leaderboards of the map and pairwise-distinct
per-player sums (before the calls and after the rescoring), every run
fetch consistent with order_by(duration) — in the first call and, since
the recompute never changes durations, in the second — and every ranking
fetch consistent with order_by(desc(points)) is uniquely determined (it
equals the stable sort, so on these states the deterministic model is the
program, not a refinement); and then calling MapTimes.update_ranks twice
with no intervening submission yields the same state as calling it once,
and Player.calculate_ranks twice the same as once. With tied durations or
tied sums the relative order of the tied rows is storage-determined and a
second call may swap their ranks. -/
theorem c7_tie_free_idempotent (cp : Int → Int → Nat → Int) (m : Nat)
    (db : DB)
    (hd2 : ((lbRows m 2 db.mapTimes).map MapTimes.duration).Nodup)
    (hd4 : ((lbRows m 4 db.mapTimes).map MapTimes.duration).Nodup)
    (hs2 : ((classSums db.mapTimes 2).map Prod.snd).Nodup)
    (hs4 : ((classSums db.mapTimes 4).map Prod.snd).Nodup)
    (hs2u : ((classSums (MapTimes.update_ranks cp m db).1.mapTimes 2).map
      Prod.snd).Nodup)
    (hs4u : ((classSums (MapTimes.update_ranks cp m db).1.mapTimes 4).map
      Prod.snd).Nodup)
    (hnd : (db.players.map Player.id_).Nodup) :
    (∀ cls, cls = 2 ∨ cls = 4 → ∀ times,
      ordByDuration (lbRows m cls db.mapTimes) times →
        times = lbTimes m cls db.mapTimes)
    ∧ (∀ cls, cls = 2 ∨ cls = 4 → ∀ times,
        ordByDuration
            (lbRows m cls (MapTimes.update_ranks cp m db).1.mapTimes) times →
          times = lbTimes m cls (MapTimes.update_ranks cp m db).1.mapTimes)
    ∧ (∀ cls, cls = 2 ∨ cls = 4 → ∀ fetched,
        ordByPtsDesc (classSums db.mapTimes cls) fetched →
          fetched = classPoints db.mapTimes cls)
    ∧ (∀ cls, cls = 2 ∨ cls = 4 → ∀ fetched,
        ordByPtsDesc
            (classSums (MapTimes.update_ranks cp m db).1.mapTimes cls)
            fetched →
          fetched = classPoints (MapTimes.update_ranks cp m db).1.mapTimes cls)
    ∧ (MapTimes.update_ranks cp m (MapTimes.update_ranks cp m db).1).1 =
        (MapTimes.update_ranks cp m db).1
    ∧ Player.calculate_ranks (Player.calculate_ranks db) =
        Player.calculate_ranks db := by
  refine ⟨?_, ?_, ?_, ?_, update_ranks_idem cp m db hnd,
    calculate_ranks_idem db hnd⟩
  · intro cls hcls times hord
    rcases hcls with rfl | rfl
    · exact ordByDuration_unique m 2 db.mapTimes times hd2 hord
    · exact ordByDuration_unique m 4 db.mapTimes times hd4 hord
  · intro cls hcls times hord
    rcases hcls with rfl | rfl
    · refine ordByDuration_unique m 2 _ times ?_ hord
      rw [update_ranks_lb_durations cp m 2 db (Or.inl rfl)]
      exact hd2
    · refine ordByDuration_unique m 4 _ times ?_ hord
      rw [update_ranks_lb_durations cp m 4 db (Or.inr rfl)]
      exact hd4
  · intro cls hcls fetched hord
    rcases hcls with rfl | rfl
    · exact ordByPtsDesc_unique db.mapTimes 2 fetched hs2 hord
    · exact ordByPtsDesc_unique db.mapTimes 4 fetched hs4 hord
  · intro cls hcls fetched hord
    rcases hcls with rfl | rfl
    · exact ordByPtsDesc_unique _ 2 fetched hs2u hord
    · exact ordByPtsDesc_unique _ 4 fetched hs4u hord

/-- A points formula that separates the two runs of the witness state, so
the tie-freeness hypotheses of the amended claim C7 are exercised for
sums as well as durations. -/
def cpW7 : Int → Int → Nat → Int := fun b d _ => b - d + 10

/-- Witness for the amended claim C7 at a concrete tie-free state. -/
theorem c7_tie_free_witness :
    (∀ cls, cls = 2 ∨ cls = 4 → ∀ times,
      ordByDuration (lbRows 1 cls dbW2.mapTimes) times →
        times = lbTimes 1 cls dbW2.mapTimes)
    ∧ (∀ cls, cls = 2 ∨ cls = 4 → ∀ times,
        ordByDuration
            (lbRows 1 cls (MapTimes.update_ranks cpW7 1 dbW2).1.mapTimes)
            times →
          times = lbTimes 1 cls (MapTimes.update_ranks cpW7 1 dbW2).1.mapTimes)
    ∧ (∀ cls, cls = 2 ∨ cls = 4 → ∀ fetched,
        ordByPtsDesc (classSums dbW2.mapTimes cls) fetched →
          fetched = classPoints dbW2.mapTimes cls)
    ∧ (∀ cls, cls = 2 ∨ cls = 4 → ∀ fetched,
        ordByPtsDesc
            (classSums (MapTimes.update_ranks cpW7 1 dbW2).1.mapTimes cls)
            fetched →
          fetched = classPoints
            (MapTimes.update_ranks cpW7 1 dbW2).1.mapTimes cls)
    ∧ (MapTimes.update_ranks cpW7 1 (MapTimes.update_ranks cpW7 1 dbW2).1).1 =
        (MapTimes.update_ranks cpW7 1 dbW2).1
    ∧ Player.calculate_ranks (Player.calculate_ranks dbW2) =
        Player.calculate_ranks dbW2 :=
  c7_tie_free_idempotent cpW7 1 dbW2 (by decide) (by decide) (by decide)
    (by decide) (by decide) (by decide) (by decide)

/-- Claim C10: MapTimes.add decides REPLACE versus REJECT by comparing
end_time - start_time of the candidate and of the run its lookup
returned, while update_ranks and get_records order runs by the separately
stored duration column, and nothing checks or recomputes that column.
Under the hypothesis that every persisted run and the candidate satisfy
duration = end_time - start_time, the decision coincides with the
duration-column comparison: the outcome is UPDATED (replace) exactly when
the candidate's duration is smaller than the found run's, and NONE
(reject) exactly otherwise. -/
theorem c10_decision_matches_duration (cp : Int → Int → Nat → Int)
    (db : DB) (c : Candidate) (entries : List CpEntry) (q : MapTimes)
    (hq : (db.mapTimes.filter fun r => r.map_id == c.map_id).head? = some q)
    (hdb : ∀ r ∈ db.mapTimes, r.duration = r.end_time - r.start_time)
    (hc : c.duration = c.end_time - c.start_time) :
    (((MapTimes.add cp db c entries).2.result = InsertResult.UPDATED) ↔
      c.duration < q.duration)
    ∧ (((MapTimes.add cp db c entries).2.result = InsertResult.NONE) ↔
      ¬ c.duration < q.duration) := by
  have hqmem : q ∈ db.mapTimes :=
    (List.mem_filter.mp (List.mem_of_mem_head? hq)).1
  have hqd : q.duration = q.end_time - q.start_time := hdb q hqmem
  by_cases hlt : c.end_time - c.start_time < q.end_time - q.start_time
  · have hres := add_replace_result cp db c entries q hq hlt
    constructor
    · constructor
      · intro _
        rw [hc, hqd]
        exact hlt
      · intro _
        exact hres
    · constructor
      · intro hcon
        exact absurd (hres.symm.trans hcon) (by decide)
      · intro hge
        exact absurd (by rw [hc, hqd]; exact hlt) hge
  · have hrej := add_reject_eq cp db c entries q hq hlt
    have hres : (MapTimes.add cp db c entries).2.result = InsertResult.NONE := by
      rw [hrej]
      rfl
    constructor
    · constructor
      · intro hcon
        exact absurd (hres.symm.trans hcon) (by decide)
      · intro hdlt
        exfalso
        apply hlt
        rw [hc, hqd] at hdlt
        exact hdlt
    · constructor
      · intro _
        intro hdlt
        apply hlt
        rw [hc, hqd] at hdlt
        exact hdlt
      · intro _
        exact hres

def dbW10 : DB := ⟨[⟨1, 1, 1, 2, 0, 10, 10, some 1, some 10⟩], [], [],
  [⟨1, 10, 0, 1, 0⟩], [], 2⟩

def candW10 : Candidate := ⟨1, 1, 2, 0, 8, 8⟩

def qW10 : MapTimes := ⟨1, 1, 1, 2, 0, 10, 10, some 1, some 10⟩

/-- Witness for claim C10 at a concrete duration-consistent state. -/
theorem c10_witness :
    (((MapTimes.add cp0 dbW10 candW10 []).2.result = InsertResult.UPDATED) ↔
      candW10.duration < qW10.duration)
    ∧ (((MapTimes.add cp0 dbW10 candW10 []).2.result = InsertResult.NONE) ↔
      ¬ candW10.duration < qW10.duration) :=
  c10_decision_matches_duration cp0 dbW10 candW10 [] qW10 (by decide)
    (by decide) (by decide)
